import Mathlib

/-!
Verification of the `bigQuery_ETL` pipeline (`src/project/scripts/etl_project.py`).

This file gives a shallow embedding of the parts of the script that the
specification's claims are about:

* `MemoryManager` (`get_memory`, `clean_memory`, `wait_memory`) — the memory
  watchdog.  Real time is modelled by an explicit clock sequence
  `clock : Nat → Nat` giving the elapsed seconds observed at each loop
  iteration; `time.sleep(5)` inside the loop is reflected as the hypothesis
  that the clock advances by at least 5 between iterations.
* `RobustAPI.makeRequest` — the retry loop.  The sequence of HTTP outcomes is
  an explicit function `responses : Nat → Resp` (one outcome per issued GET),
  and the `while` loop is run with explicit fuel, since — as proved below —
  the loop does not terminate on every response sequence.  Backoff sleeps are
  recorded in a list instead of actually sleeping.
* `UserData.data_transform` — `pandas.json_normalize` plus column renaming and
  numeric-to-string coercion.  JSON values are modelled by `JValue`
  (null / string / integer / array / object); Python floats and booleans are
  outside the model.  A pandas `DataFrame` is modelled column-wise as a
  `Table = List (String × List JValue)` together with the dtype-inference
  rules pandas applies when building a frame from records (all-int column ↦
  `int64`, or `uint64` when values exceed the signed 64-bit range but fit
  unsigned, signed-range ints mixed with nulls ↦ `float64` with
  `None ↦ NaN`, anything else — including all-int columns with a value
  outside both 64-bit ranges, kept as Python objects — ↦ `object`).  The
  model requires all records of one payload to
  flatten to the same key list (pandas would otherwise union the columns and
  fill missing cells with NaN); payloads outside this fragment are mapped to
  the model-boundary error `PyErr.modelNonUniformKeys`.
* `DataLoader.postgresql_load` — column selection (`KeyError` when an
  expected column is missing) followed by an append to the sink, the sink
  being modelled as the list of rows already written.
* the `__main__` driver — `runDriver`, including Python's truthiness test in
  `if data := user_data_api.makeRequest(...)`.

Exceptions are modelled with `Except` / `Option` results; an exception kind
is a `PyErr` constructor.
-/

/-- Kinds of Python exceptions (and one model-boundary marker) that the
embedded functions can signal. -/
inductive PyErr where
  /-- `KeyError`, e.g. `data['results']` on a dict without that key, or
  `data_df[cols]` with a missing column. -/
  | keyError
  /-- `TypeError`, e.g. `data['results']` when `data` is not a mapping. -/
  | typeError
  /-- `AttributeError` raised by `pandas.json_normalize` when a record in the
  list is not a dict. -/
  | attributeError
  /-- `NotImplementedError` raised by `pandas.json_normalize` when the data is
  neither a dict nor a non-string iterable. -/
  | notImplementedError
  /-- Model boundary: the records do not all flatten to one and the same key
  list (real pandas would union the columns and NaN-fill missing cells;
  payloads in this fragment are not modelled). -/
  | modelNonUniformKeys
  deriving DecidableEq

mutual
/-- JSON values as returned by `response.json()`: null, strings, integers,
arrays and objects.  Floats and booleans are outside the model. -/
inductive JValue where
  | null
  | str (s : String)
  | int (n : Int)
  | arr (elems : JList)
  | obj (fields : JFields)
/-- A list of JSON values (array elements). -/
inductive JList where
  | nil
  | cons (v : JValue) (rest : JList)
/-- The ordered fields of a JSON object. -/
inductive JFields where
  | fnil
  | fcons (k : String) (v : JValue) (rest : JFields)
end

/-- Is the value a JSON object (a Python dict)? -/
def JValue.isObj : JValue → Bool
  | .obj _ => true
  | _ => false

/-- Is the value a JSON integer? -/
def JValue.isInt : JValue → Bool
  | .int _ => true
  | _ => false

/-- Is the value JSON null (Python `None`)? -/
def JValue.isNull : JValue → Bool
  | .null => true
  | _ => false

/-- Python dict lookup `fields[k]`, returning `none` when the key is absent
(first binding wins; a well-formed JSON object has distinct keys). -/
def JFields.lookup (k : String) : JFields → Option JValue
  | .fnil => none
  | .fcons k' v rest => if k' = k then some v else JFields.lookup k rest

/-- Build a `JFields` object from an association list. -/
def JFields.ofList : List (String × JValue) → JFields
  | [] => .fnil
  | (k, v) :: rest => .fcons k v (JFields.ofList rest)

mutual
/-- One entry of pandas' `nested_to_record` (the flattening step of
`json_normalize`): a dict-valued entry is expanded recursively with the key
joined by `'.'`; any other value is kept as a single flat entry. -/
def flattenEntry : String → JValue → List (String × JValue)
  | k, JValue.obj fs => (flattenFields fs).map (fun p => (k ++ "." ++ p.1, p.2))
  | k, v => [(k, v)]
/-- Flatten all fields of a record, in order (pandas `nested_to_record` with
the default separator `'.'`). -/
def flattenFields : JFields → List (String × JValue)
  | .fnil => []
  | .fcons k v rest => flattenEntry k v ++ flattenFields rest
end

/-- A pandas `DataFrame`, modelled column-wise: a list of
(column name, column values) pairs, in column order. -/
abbrev Table := List (String × List JValue)

/-- First-binding lookup in an association list keyed by strings; used both
for flattened records (Python dict lookup) and for `DataFrame` column access
(`data_df[k]`). -/
def alistLookup {α : Type} (k : String) : List (String × α) → Option α
  | [] => none
  | (k', v) :: rest => if k' = k then some v else alistLookup k rest

/-- Are the keys of the list pairwise distinct?  (Boolean version of
`List.Nodup`, kept executable for concrete evaluation.) -/
def nodupKeys : List String → Bool
  | [] => true
  | k :: rest => !(rest.contains k) && nodupKeys rest

/-- The step of `pandas.json_normalize` that decides what counts as records:
an empty list gives an empty frame, a dict is wrapped as a single record, a
non-empty list is taken as the records, and any other value (strings
included) raises `NotImplementedError`. -/
def asRecords : JValue → Except PyErr (List JValue)
  | .arr es =>
    .ok (go es)
  | .obj fs => .ok [.obj fs]
  | _ => .error .notImplementedError
where
  /-- Convert the embedded array to a `List`. -/
  go : JList → List JValue
  | .nil => []
  | .cons v rest => v :: go rest

/-- Flatten each record with `nested_to_record`, failing with
`AttributeError` on the first record that is not a dict (as
`pandas.json_normalize` does). -/
def flattenRecords : List JValue → Except PyErr (List (List (String × JValue)))
  | [] => .ok []
  | r :: rest =>
    match r with
    | .obj fs =>
      match flattenRecords rest with
      | .ok flats => .ok (flattenFields fs :: flats)
      | .error e => .error e
    | _ => .error .attributeError

/-- Model of `pandas.json_normalize(data)` restricted to the fragment where
every record flattens to the same key list (see the module docstring): each
record must be a dict (otherwise `AttributeError`); the records are
flattened with `nested_to_record`; the resulting frame has one column per
flattened key, in the key order of the first record, and one cell per
record, matched by key. -/
def jsonNormalize (data : JValue) : Except PyErr Table :=
  match asRecords data with
  | .error e => .error e
  | .ok records =>
    match flattenRecords records with
    | .error e => .error e
    | .ok flats =>
      match flats with
      | [] => .ok []
      | f₀ :: _ =>
        if flats.all (fun f => f.map Prod.fst == f₀.map Prod.fst) && nodupKeys (f₀.map Prod.fst) then
          .ok ((f₀.map Prod.fst).map
            (fun k => (k, flats.map (fun f => (alistLookup k f).getD .null))))
        else
          .error .modelNonUniformKeys

/-- The character map of Python `s.replace('.', '_')`: a dot becomes an
underscore, anything else is unchanged. -/
def dotToUnderscore (c : Char) : Char :=
  if c = '.' then '_' else c

/-- Python `s.replace('.', '_')` for the one-character pattern used by the
script: every `'.'` becomes `'_'`. -/
def replaceDots (s : String) : String :=
  .mk (s.data.map dotToUnderscore)

/-- Python `s.lower()` (ASCII fragment): every character is lower-cased. -/
def lowerStr (s : String) : String :=
  .mk (s.data.map Char.toLower)

/-- Python `s.strip()` on a character list: drop leading and trailing
whitespace. -/
def stripChars (l : List Char) : List Char :=
  ((l.dropWhile Char.isWhitespace).reverse.dropWhile Char.isWhitespace).reverse

/-- Python `s.strip()`: drop leading and trailing whitespace. -/
def stripStr (s : String) : String :=
  .mk (stripChars s.data)

/-- The column renaming of `data_transform`:
`.str.replace('.', '_', regex=False).str.lower().str.strip()`. -/
def cleanCol (s : String) : String :=
  stripStr (lowerStr (replaceDots s))

/-- Is the value an integer in the 64-bit signed range
`[-2^63, 2^63)`?  A column of Python ints gets dtype `int64` only when all
of them fit. -/
def fitsInt64 : JValue → Bool
  | .int n => decide (-(2 ^ 63) ≤ n) && decide (n < 2 ^ 63)
  | _ => false

/-- Is the value an integer in the 64-bit unsigned range `[0, 2^64)`?
Pandas falls back to dtype `uint64` for an all-int column whose values
exceed the signed range but fit unsigned. -/
def fitsUInt64 : JValue → Bool
  | .int n => decide (0 ≤ n) && decide (n < 2 ^ 64)
  | _ => false

/-- Pandas column dtypes relevant to the script. -/
inductive Dtype where
  | int64
  | uint64
  | float64
  | object
  deriving DecidableEq

/-- Pandas dtype inference when a `DataFrame` is built from records, for the
value fragment of the model: a non-empty all-int column is `int64` when
every value fits the signed 64-bit range, and `uint64` when every value
fits the unsigned range instead; a column of `int64`-range ints and nulls
with at least one int is `float64` (`None` becomes `NaN`); every other
column — strings, arrays, all-null columns and all-int columns with a
value outside both 64-bit ranges, whose Python ints are kept as objects —
is `object`. -/
def inferDtype (col : List JValue) : Dtype :=
  if col.all fitsInt64 && !col.isEmpty then .int64
  else if col.all fitsUInt64 && !col.isEmpty then .uint64
  else if col.all (fun v => v.isNull || fitsInt64 v) && col.any JValue.isInt then .float64
  else .object

/-- Is the dtype selected by `select_dtypes(include=['int64', 'float64'])`?
Note `uint64` and `object` columns are never selected, so `astype(str)` is
not applied to them and their values stay unchanged. -/
def Dtype.isNumeric : Dtype → Bool
  | .int64 => true
  | .uint64 => false
  | .float64 => true
  | .object => false

/-- Python `str(float(n))` for an integer in a `float64` column, modelled as
the decimal digits followed by `".0"`.  This text is exact for
`|n| < 10^16`; for larger magnitudes Python would use rounding and
scientific notation (floating-point semantics, outside the model).  No
claim's verdict depends on the exact text — `float64` columns are excluded
from the amended C5 and idempotence only needs the cell to become some
string. -/
def intAsFloatStr (n : Int) : String := toString n ++ ".0"

/-- The effect of `astype(str)` on one cell of a column of the given numeric
dtype: in an `int64` column `str(n)` is the decimal representation; in a
`float64` column an int renders as a float (`"1.0"`) and a null, having
become `NaN`, renders as `"nan"`. -/
def astypeStrVal : Dtype → JValue → JValue
  | .int64, .int n => .str (toString n)
  | .float64, .int n => .str (intAsFloatStr n)
  | .float64, .null => .str "nan"
  | _, v => v

/-- Apply `astype(str)` to a column when its dtype is numeric (the
`select_dtypes`/`astype` step of `data_transform`); other columns are left
unchanged. -/
def astypeCol (col : List JValue) : List JValue :=
  let dt := inferDtype col
  if dt.isNumeric then col.map (astypeStrVal dt) else col

/-- `UserData.data_transform` (lines 121–144): `pd.json_normalize
(data['results'])`, then rename every column with
`replace('.', '_').lower().strip()`, then convert the `int64`/`float64`
columns to strings with `astype(str)`. -/
def data_transform (data : JValue) : Except PyErr Table :=
  match data with
  | .obj fs =>
    match fs.lookup "results" with
    | none => .error .keyError
    | some results =>
      match jsonNormalize results with
      | .error e => .error e
      | .ok df =>
        let renamed : Table := df.map (fun c => (cleanCol c.1, c.2))
        .ok (renamed.map (fun c => (c.1, astypeCol c.2)))
  | _ => .error .typeError

/-- A database row, as written by `to_sql`: the selected cells with their
column names, in column order. -/
abbrev DbRow := List (String × JValue)

/-- Number of rows of a table (the length of its first column; every table
built by `jsonNormalize` has all columns of this same length). -/
def nRows : Table → Nat
  | [] => 0
  | c :: _ => c.2.length

/-- Row `i` of a table, read across the columns.  The `getD` default is never
reached on tables whose columns all have length `> i`. -/
def rowAt (t : Table) (i : Nat) : DbRow :=
  t.map (fun c => (c.1, c.2.getD i .null))

/-- All rows of a table, in order. -/
def tableRecords (t : Table) : List DbRow :=
  (List.range (nRows t)).map (rowAt t)

/-- The fixed list of expected relational columns (line 206 of the script). -/
def colunas_relacionais : List String :=
  ["email", "name_title", "name_first", "name_last", "location_street_number",
   "location_street_name", "location_city", "location_state",
   "location_country", "location_postcode"]

/-- `DataLoader.postgresql_load` (lines 189–215): select
`data_df[colunas_relacionais]` — a `KeyError` when any of these columns is
absent, raised before anything is written — and then append the selected
rows to the existing `users` table (`to_sql(..., if_exists='append')`).  The
sink is modelled as the list of rows already in the `users` table; the `ok`
result is its new contents.  Connection handling and the chunked transfer
(`chunksize=1000`, invisible in the final state) are out-of-scope I/O. -/
def postgresql_load (data_df : Table) (sink : List DbRow) : Except PyErr (List DbRow) :=
  if colunas_relacionais.all (fun k => (alistLookup k data_df).isSome) then
    .ok (sink ++ tableRecords
      (colunas_relacionais.map (fun k => (k, (alistLookup k data_df).getD []))))
  else
    .error .keyError

/-- Python truthiness of a JSON value: `None`, `""`, `0`, `[]` and `{}` are
falsy, everything else in the model is truthy. -/
def pyTruthy : JValue → Bool
  | .null => false
  | .str s => !(s == "")
  | .int n => !(n == 0)
  | .arr .nil => false
  | .arr (.cons _ _) => true
  | .obj .fnil => false
  | .obj (.fcons _ _ _) => true

/-- Outcome of one run of the `__main__` driver. -/
inductive DriverOutcome where
  /-- The walrus test was falsy: printed `"Sem dados da API."` and stopped. -/
  | noData
  /-- An exception reached the top-level `except`: printed
  `"Ocorreu um erro"` and stopped. -/
  | failed (e : PyErr)
  /-- Every load ran; the relational sink now holds the given rows. -/
  | loaded (sink : List DbRow)

/-- The `__main__` driver (lines 278–304): `if data := makeRequest(...)` —
Python truthiness decides between the pipeline and the `"Sem dados"`
branch — then `data_transform`, then `postgresql_load`; any exception is
caught by the single top-level `except`.  The MongoDB and BigQuery loads
that follow a successful relational load are decision-free I/O wrappers
(out of scope per the specification) and are modelled as succeeding. -/
def runDriver (fetched : Option JValue) (sink : List DbRow) : DriverOutcome :=
  match fetched with
  | none => .noData
  | some data =>
    if pyTruthy data then
      match data_transform data with
      | .error e => .failed e
      | .ok data_df =>
        match postgresql_load data_df sink with
        | .error e => .failed e
        | .ok sink' => .loaded sink'
    else .noData

/-- `MemoryManager.get_memory` (lines 28–34): returns
`psutil.virtual_memory().percent`, or `None` when reading it raises —
the `except` catches every exception, prints, and returns `None`.  The
psutil call's outcome is the explicit argument. -/
def get_memory (psutilResult : Except String Nat) : Option Nat :=
  match psutilResult with
  | .ok percent => some percent
  | .error _ => none

/-- `MemoryManager.clean_memory` (lines 36–46): returns `False` when
`get_memory` gives `None`; otherwise runs `gc.collect()`/`time.sleep(0.5)`
when above the threshold (`_max_percent`; the collection has no modelled
effect) and falls off the end, returning Python `None` (modelled as
`Option.none`). -/
def clean_memory (psutilResult : Except String Nat) (_max_percent : Nat) : Option Bool :=
  match get_memory psutilResult with
  | none => some false
  | some _ => none

/-- The `while True` loop of `MemoryManager.wait_memory` (lines 48–68), with
explicit fuel.  `samples i` is the psutil outcome of iteration `i` and
`clock i` the elapsed seconds `time.time() - start_wait` observed at
iteration `i`.  A `some` result is the Python return value; `none` means the
loop was still running when the fuel ran out. -/
def wait_memoryGo (samples : Nat → Except String Nat) (clock : Nat → Nat)
    (max_percent max_time_seconds : Nat) : Nat → Nat → Option Bool
  | 0, _ => none
  | fuel + 1, i =>
    match get_memory (samples i) with
    | none => some true
    | some usage =>
      if usage ≤ max_percent then some true
      else if clock i ≥ max_time_seconds then some true
      else wait_memoryGo samples clock max_percent max_time_seconds fuel (i + 1)

/-- `MemoryManager.wait_memory`: the waiting loop started at iteration 0,
with `max_time_seconds = max_wait_minutes * 60`. -/
def wait_memory (samples : Nat → Except String Nat) (clock : Nat → Nat)
    (max_percent max_wait_minutes fuel : Nat) : Option Bool :=
  wait_memoryGo samples clock max_percent (max_wait_minutes * 60) fuel 0

/-- One HTTP attempt's outcome, as seen by the `try` block of `makeRequest`:
either a completed response with a status code and a (parsed) body, or a
transport-level `requests.RequestException` raised by `requests.get`. -/
inductive Resp where
  | http (status : Nat) (body : JValue)
  | exn

/-- The transient status codes of line 87: `[429, 500, 502, 503, 504]`. -/
def transientStatus (s : Nat) : Bool :=
  s == 429 || s == 500 || s == 502 || s == 503 || s == 504

/-- `response.raise_for_status()`: raises `requests.HTTPError` (carrying the
status) exactly for 4xx and 5xx codes, and does nothing otherwise. -/
def raise_for_status (s : Nat) : Except Nat Unit :=
  if 400 ≤ s ∧ s < 600 then .error s else .ok ()

/-- What one execution of the `try` block of `makeRequest` does. -/
inductive TryOutcome where
  /-- `return response.json()` (status 200). -/
  | ret (v : JValue)
  /-- Transient status: printed, `attempt += 1`, `time.sleep(2 ** attempt)`,
  loop again (handled inside the `try`). -/
  | transientRetry
  /-- The `else` branch ran and `raise_for_status()` did not raise (non-200
  status outside 400–599): the `try` block ends, the loop repeats with
  `attempt` unchanged. -/
  | noRaise
  /-- A `requests.RequestException` escaped the `try` body — either
  `requests.get` itself raised, or `raise_for_status()` raised `HTTPError`
  (a subclass of `RequestException`).  Caught by the `except` clause:
  printed, `attempt += 1`, `time.sleep(2 ** attempt)`, loop again. -/
  | raised

/-- One execution of the `try` block of `makeRequest` (lines 82–97) on the
given attempt outcome. -/
def tryBody : Resp → TryOutcome
  | .exn => .raised
  | .http s body =>
    if s = 200 then .ret body
    else if transientStatus s then .transientRetry
    else
      match raise_for_status s with
      | .error _ => .raised
      | .ok _ => .noRaise

/-- The `while attempt < max_retries` loop of `RobustAPI.makeRequest`
(lines 79–97), with explicit fuel (one unit per loop iteration; the loop is
not bounded by `attempt` alone, as proved below).  `responses i` is the
outcome of the `i`-th issued GET; `sleeps` records the executed
`time.sleep(2 ** attempt)` durations in seconds, in order.  A `some` result
is the Python return value — `some (some v, sleeps)` for `return
response.json()`, `some (none, sleeps)` when the loop exhausts its attempts
and the function falls off the end returning `None` — while `none` means the
loop was still running when the fuel ran out. -/
def makeRequestGo (responses : Nat → Resp) (max_retries : Nat) :
    Nat → Nat → Nat → List Nat → Option (Option JValue × List Nat)
  | 0, _, _, _ => none
  | fuel + 1, i, attempt, sleeps =>
    if attempt < max_retries then
      match tryBody (responses i) with
      | .ret v => some (some v, sleeps)
      | .transientRetry =>
        makeRequestGo responses max_retries fuel (i + 1) (attempt + 1) (sleeps ++ [2 ^ (attempt + 1)])
      | .raised =>
        makeRequestGo responses max_retries fuel (i + 1) (attempt + 1) (sleeps ++ [2 ^ (attempt + 1)])
      | .noRaise =>
        makeRequestGo responses max_retries fuel (i + 1) attempt sleeps
    else
      some (none, sleeps)

/-- `RobustAPI.makeRequest` run from the start of the loop. -/
def makeRequest (responses : Nat → Resp) (max_retries fuel : Nat) :
    Option (Option JValue × List Nat) :=
  makeRequestGo responses max_retries fuel 0 0 []

/-- A transient failure in the sense of the specification: a status in
`{429, 500, 502, 503, 504}` or a transport-level exception. -/
def isTransientResp : Resp → Bool
  | .exn => true
  | .http s _ => transientStatus s

/-- The retry loop never reaches a terminal outcome: with every amount of
fuel, the run is still inside the loop.  (Each unit of fuel is one loop
iteration, so this says the `while` loop of `makeRequest` runs forever.) -/
def runsForever (responses : Nat → Resp) (max_retries : Nat) : Prop :=
  ∀ fuel, makeRequest responses max_retries fuel = none

/-- Convert a `List` of JSON values back into an embedded JSON array. -/
def listToJList : List JValue → JList
  | [] => .nil
  | v :: rest => .cons v (listToJList rest)

/-- Wrap an already-normalized table back into a payload
`{"results": [row, ...]}`, each row as a JSON object; feeding this to
`data_transform` is the second application of normalization in the
idempotence claim. -/
def tableToPayload (t : Table) : JValue :=
  .obj (.fcons "results"
    (.arr (listToJList ((tableRecords t).map (fun r => JValue.obj (JFields.ofList r)))))
    .fnil)

/-- The backoff sleeps executed by `n` consecutive retried failures starting
from the given attempt counter: `2^(attempt+1), 2^(attempt+2), ...` seconds
(the code increments `attempt` before sleeping `2 ** attempt`). -/
def backoffSleeps (attempt : Nat) : Nat → List Nat
  | 0 => []
  | n + 1 => 2 ^ (attempt + 1) :: backoffSleeps (attempt + 1) n

/-- A response sequence that always answers 404 Not Found (a non-transient
client error). -/
def c404seq : Nat → Resp := fun _ => .http 404 (.str "Not Found")

/-- A response sequence that always answers 204 No Content: not 200, not
transient, and outside the 400–599 range in which `raise_for_status`
raises. -/
def c204seq : Nat → Resp := fun _ => .http 204 (.str "")

/-- A response sequence that always answers 503 Service Unavailable. -/
def c503seq : Nat → Resp := fun _ => .http 503 (.str "Service Unavailable")

/-- Three 503 responses followed by a 200 whose parsed body is `"ok"`. -/
def threeFailSeq : Nat → Resp := fun i =>
  if i < 3 then .http 503 (.str "Service Unavailable") else .http 200 (.str "ok")

/-- The `results` value `[{"name": {"first": "Ana", "last": "Lima"},
"age": 30}]` of the specification's end-to-end scenario. -/
def anaResults : JValue :=
  .arr (.cons (.obj (.fcons "name"
    (.obj (.fcons "first" (.str "Ana") (.fcons "last" (.str "Lima") .fnil)))
    (.fcons "age" (.int 30) .fnil))) .nil)

/-- The fields of the Ana payload. -/
def anaFields : JFields := .fcons "results" anaResults .fnil

/-- The payload `{"results": [{"name": {"first": "Ana", "last": "Lima"},
"age": 30}]}` of the specification's end-to-end scenario. -/
def anaPayload : JValue := .obj anaFields

/-- The frame `json_normalize` builds for `anaPayload`, before renaming and
type coercion: dotted keys, `age` still an integer. -/
def anaRawTable : Table :=
  [("name.first", [.str "Ana"]), ("name.last", [.str "Lima"]), ("age", [.int 30])]

/-- The table produced for `anaPayload`: one row, integer `30` rendered as
the string `"30"`. -/
def anaTable : Table :=
  [("name_first", [.str "Ana"]), ("name_last", [.str "Lima"]), ("age", [.str "30"])]

/-- The payload `{"results": [{"a": 1}, {"a": null}]}`: well-formed, but its
single column mixes an integer with a null. -/
def mixedPayload : JValue :=
  .obj (.fcons "results"
    (.arr (.cons (.obj (.fcons "a" (.int 1) .fnil))
      (.cons (.obj (.fcons "a" .null .fnil)) .nil)))
    .fnil)

/-- The payload `{"results": {"name": "x"}}`, whose `results` value is an
object, not an array. -/
def dictResultsPayload : JValue :=
  .obj (.fcons "results" (.obj (.fcons "name" (.str "x") .fnil)) .fnil)

/-- Fields of a payload whose `results` value is the string `"abc"`. -/
def strResultsFields : JFields := .fcons "results" (.str "abc") .fnil

/-- A one-column table that lacks the `email` column (and every other
expected relational column). -/
def missingEmailTable : Table := [("name_first", [.str "Ana"])]

/-- The payload `{"results": []}`: a non-empty mapping (truthy in Python)
whose `results` array is empty. -/
def emptyResultsPayload : JValue := .obj (.fcons "results" (.arr .nil) .fnil)

/-! ## Lemmas about the retry loop -/

/-- A transient response (transient status or transport exception) makes the
`try` block end in a retry — through the transient branch or through the
`except` clause. -/
theorem tryBody_of_transient (r : Resp) (h : isTransientResp r = true) :
    tryBody r = .transientRetry ∨ tryBody r = .raised := by
  cases r with
  | exn => exact Or.inr rfl
  | http s body =>
    simp only [isTransientResp] at h
    have hs : (((s = 429 ∨ s = 500) ∨ s = 502) ∨ s = 503) ∨ s = 504 := by
      simpa [transientStatus] using h
    rcases hs with (((rfl | rfl) | rfl) | rfl) | rfl <;> exact Or.inl rfl

/-- Every element of `backoffSleeps a n` is larger than `2 ^ a`. -/
theorem mem_backoffSleeps_lt : ∀ (n a x : Nat), x ∈ backoffSleeps a n → 2 ^ a < x := by
  intro n
  induction n with
  | zero => intro a x hx; simp [backoffSleeps] at hx
  | succ n ih =>
    intro a x hx
    have hpow : 2 ^ a < 2 ^ (a + 1) := by
      rw [Nat.pow_succ]
      have := Nat.two_pow_pos a
      omega
    rcases List.mem_cons.mp hx with rfl | hx
    · exact hpow
    · exact Nat.lt_trans hpow (ih (a + 1) x hx)

/-- The recorded backoff delays are strictly increasing. -/
theorem backoffSleeps_pairwise : ∀ (n a : Nat), (backoffSleeps a n).Pairwise (· < ·) := by
  intro n
  induction n with
  | zero => intro a; exact List.Pairwise.nil
  | succ n ih =>
    intro a
    refine List.Pairwise.cons (fun x hx => ?_) (ih (a + 1))
    exact mem_backoffSleeps_lt n (a + 1) x hx

/-- Running the loop across `n` consecutive transient responses consumes one
attempt and records one backoff sleep per response. -/
theorem makeRequestGo_transient_steps (responses : Nat → Resp) (m : Nat) :
    ∀ (n fuel i attempt : Nat) (sleeps : List Nat),
      (∀ k, k < n → isTransientResp (responses (i + k)) = true) →
      attempt + n ≤ m → n ≤ fuel →
      makeRequestGo responses m fuel i attempt sleeps =
        makeRequestGo responses m (fuel - n) (i + n) (attempt + n)
          (sleeps ++ backoffSleeps attempt n) := by
  intro n
  induction n with
  | zero => intro fuel i attempt sleeps _ _ _; simp [backoffSleeps]
  | succ n ih =>
    intro fuel i attempt sleeps htrans hm hfuel
    obtain ⟨f, rfl⟩ : ∃ f, fuel = f + 1 := ⟨fuel - 1, by omega⟩
    have hlt : attempt < m := by omega
    have hstep : makeRequestGo responses m (f + 1) i attempt sleeps =
        makeRequestGo responses m f (i + 1) (attempt + 1) (sleeps ++ [2 ^ (attempt + 1)]) := by
      rcases tryBody_of_transient (responses i)
          (by simpa using htrans 0 (by omega)) with ht | ht <;>
        simp [makeRequestGo, hlt, ht]
    rw [hstep]
    rw [ih f (i + 1) (attempt + 1) (sleeps ++ [2 ^ (attempt + 1)])
      (fun k hk => by
        have := htrans (k + 1) (by omega)
        simpa [Nat.add_assoc, Nat.add_comm 1 k] using this)
      (by omega) (by omega)]
    rw [show f + 1 - (n + 1) = f - n by omega,
      show i + (n + 1) = i + 1 + n by omega,
      show attempt + (n + 1) = attempt + 1 + n by omega,
      List.append_assoc, List.singleton_append]
    rfl

/-! ## Claims C1–C4: the retry loop -/

/-- C1, counterexample.  The claim says a non-transient non-200 status (such
as 404) makes `makeRequest` fail immediately with an error carrying status
and body, with no further attempt and no backoff sleep.  In the code,
`raise_for_status()` raises `requests.HTTPError`, a subclass of
`requests.RequestException`, which the function's own `except` clause
catches: on a constant-404 sequence the loop instead performs all five
attempts with backoff sleeps 2, 4, 8, 16, 32 and returns `None` — no error
ever reaches the caller, and the sleep list is not empty. -/
theorem c1_counterexample :
    makeRequest c404seq 5 6 = some (none, [2, 4, 8, 16, 32]) ∧
    ([2, 4, 8, 16, 32] : List Nat) ≠ [] :=
  ⟨rfl, by decide⟩

/-- C1, amended.  A response with a non-transient 4xx/5xx status is handled
exactly like a transient failure: the `HTTPError` raised by
`raise_for_status()` is caught by the `except requests.RequestException`
clause of `makeRequest` itself, so the iteration increments `attempt`,
sleeps `2 ** attempt` seconds, and retries instead of propagating the
error. -/
theorem c1_nontransient_4xx5xx_retried (responses : Nat → Resp)
    (m fuel i attempt : Nat) (sleeps : List Nat) (s : Nat) (body : JValue)
    (h400 : 400 ≤ s) (h600 : s < 600) (hnt : transientStatus s = false)
    (hresp : responses i = .http s body) (hlt : attempt < m) :
    tryBody (.http s body) = .raised ∧
    makeRequestGo responses m (fuel + 1) i attempt sleeps =
      makeRequestGo responses m fuel (i + 1) (attempt + 1) (sleeps ++ [2 ^ (attempt + 1)]) := by
  have h200 : ¬s = 200 := by omega
  have ht : tryBody (.http s body) = .raised := by
    simp [tryBody, h200, hnt, raise_for_status, h400, h600]
  exact ⟨ht, by simp [makeRequestGo, hlt, hresp, ht]⟩

/-- Witness for the amended C1 at status 404: the first 404 consumes one
attempt and records the backoff sleep of 2 seconds. -/
theorem c1_nontransient_4xx5xx_retried_witness :
    (400 ≤ 404 ∧ 404 < 600 ∧ transientStatus 404 = false ∧
      c404seq 0 = .http 404 (.str "Not Found") ∧ 0 < 5) ∧
    (tryBody (.http 404 (.str "Not Found")) = .raised ∧
      makeRequestGo c404seq 5 6 0 0 [] = makeRequestGo c404seq 5 5 1 1 [2]) :=
  ⟨⟨by decide, by decide, by decide, rfl, by decide⟩,
    c1_nontransient_4xx5xx_retried c404seq 5 5 0 0 [] 404 (.str "Not Found")
      (by decide) (by decide) (by decide) rfl (by decide)⟩

/-- On the constant-204 sequence every iteration takes the `else` branch,
`raise_for_status()` does not raise (204 is outside 400–599), and `attempt`
is never incremented: the loop makes no progress. -/
theorem makeRequestGo_c204_spin :
    ∀ (fuel i attempt : Nat) (sleeps : List Nat), attempt < 5 →
      makeRequestGo c204seq 5 fuel i attempt sleeps = none := by
  intro fuel
  induction fuel with
  | zero => intro i attempt sleeps _; rfl
  | succ fuel ih =>
    intro i attempt sleeps h
    have ht : tryBody (c204seq i) = .noRaise := rfl
    simp only [makeRequestGo, if_pos h, ht]
    exact ih (i + 1) attempt sleeps h

/-- C2, counterexample.  The claim says `makeRequest` reaches a terminal
outcome after at most `max_retries` attempts for every response sequence.
On the constant-204 sequence (a non-200 status that is neither transient nor
in the 400–599 range where `raise_for_status` raises) the loop body neither
returns nor increments `attempt`, so the `while` loop runs forever. -/
theorem c2_counterexample : runsForever c204seq 5 := by
  intro fuel
  exact makeRequestGo_c204_spin fuel 0 0 [] (by decide)

/-- C2, amended.  Whenever no response spins the loop — every response is a
200, a transient status, a transport error, or a 4xx/5xx (in which case the
`try` block always returns, retries, or raises into the `except` clause) —
the loop reaches a terminal outcome within `max_retries + 1` iterations,
because every non-returning iteration increments `attempt`. -/
theorem c2_terminates_without_spin (responses : Nat → Resp) (m : Nat)
    (h : ∀ j, tryBody (responses j) ≠ .noRaise) :
    ∃ r, makeRequest responses m (m + 1) = some r := by
  suffices hgen : ∀ fuel i attempt sleeps, m - attempt < fuel →
      ∃ r, makeRequestGo responses m fuel i attempt sleeps = some r by
    exact hgen (m + 1) 0 0 [] (by omega)
  intro fuel
  induction fuel with
  | zero => intro i attempt sleeps h0; exact (Nat.not_lt_zero _ h0).elim
  | succ fuel ih =>
    intro i attempt sleeps hf
    by_cases hlt : attempt < m
    · cases htb : tryBody (responses i) with
      | ret v => exact ⟨(some v, sleeps), by simp [makeRequestGo, hlt, htb]⟩
      | transientRetry =>
        obtain ⟨r, hr⟩ := ih (i + 1) (attempt + 1) (sleeps ++ [2 ^ (attempt + 1)]) (by omega)
        exact ⟨r, by simp only [makeRequestGo, if_pos hlt, htb]; exact hr⟩
      | raised =>
        obtain ⟨r, hr⟩ := ih (i + 1) (attempt + 1) (sleeps ++ [2 ^ (attempt + 1)]) (by omega)
        exact ⟨r, by simp only [makeRequestGo, if_pos hlt, htb]; exact hr⟩
      | noRaise => exact absurd htb (h i)
    · exact ⟨(none, sleeps), by simp [makeRequestGo, hlt]⟩

/-- Witness for the amended C2 on the constant-404 sequence: no response
spins the loop, and the run reaches a terminal outcome. -/
theorem c2_terminates_without_spin_witness :
    (∀ j, tryBody (c404seq j) ≠ .noRaise) ∧
    ∃ r, makeRequest c404seq 5 6 = some r :=
  ⟨(fun _ h => by cases h), c2_terminates_without_spin c404seq 5 (fun _ h => by cases h)⟩

/-- C3: on `max_retries` consecutive transient failures (transient status or
transport exception), `makeRequest` sleeps `2, 4, 8, ...` seconds — the
recorded delays are strictly increasing — and after exhausting its attempts
terminates returning `None` rather than raising. -/
theorem c3_transient_exhaustion (responses : Nat → Resp) (m : Nat)
    (h : ∀ k, k < m → isTransientResp (responses k) = true) :
    makeRequest responses m (m + 1) = some (none, backoffSleeps 0 m) ∧
    (backoffSleeps 0 m).Pairwise (· < ·) := by
  constructor
  · have hrun := makeRequestGo_transient_steps responses m m (m + 1) 0 0 []
      (fun k hk => by simpa using h k hk) (by omega) (by omega)
    rw [show m + 1 - m = 1 by omega, show 0 + m = m by omega] at hrun
    have hexit : makeRequestGo responses m 1 m m ([] ++ backoffSleeps 0 m) =
        some (none, [] ++ backoffSleeps 0 m) := by
      simp [makeRequestGo]
    simp only [makeRequest]
    rw [hrun, hexit]
    simp
  · exact backoffSleeps_pairwise m 0

/-- Witness for C3: five consecutive 503 responses give five strictly
increasing sleeps `2, 4, 8, 16, 32` and a `None` result. -/
theorem c3_transient_exhaustion_witness :
    (∀ k, k < 5 → isTransientResp (c503seq k) = true) ∧
    (makeRequest c503seq 5 6 = some (none, backoffSleeps 0 5) ∧
      (backoffSleeps 0 5).Pairwise (· < ·)) ∧
    backoffSleeps 0 5 = [2, 4, 8, 16, 32] :=
  ⟨by decide, c3_transient_exhaustion c503seq 5 (by decide), rfl⟩

/-- C4: a 200 response returns the parsed body at once, no matter how many
transient failures preceded it; the recorded sleeps are exactly those of the
preceding failures. -/
theorem c4_success_after_transients (responses : Nat → Resp) (m n : Nat) (body : JValue)
    (hn : n < m) (h : ∀ k, k < n → isTransientResp (responses k) = true)
    (h200 : responses n = .http 200 body) :
    makeRequest responses m (n + 1) = some (some body, backoffSleeps 0 n) := by
  have hrun := makeRequestGo_transient_steps responses m n (n + 1) 0 0 []
    (fun k hk => by simpa using h k hk) (by omega) (by omega)
  rw [show n + 1 - n = 1 by omega, show 0 + n = n by omega] at hrun
  have ht : tryBody (responses n) = .ret body := by rw [h200]; rfl
  have hstep : makeRequestGo responses m 1 n n ([] ++ backoffSleeps 0 n) =
      some (some body, [] ++ backoffSleeps 0 n) := by
    simp [makeRequestGo, hn, ht]
  simp only [makeRequest]
  rw [hrun, hstep]
  simp

/-- Witness for C4, the specification's scenario: three 503 responses
followed by a 200 yield the parsed body with exactly the three backoff
sleeps 2, 4, 8. -/
theorem c4_success_after_transients_witness :
    (3 < 5 ∧ (∀ k, k < 3 → isTransientResp (threeFailSeq k) = true) ∧
      threeFailSeq 3 = .http 200 (.str "ok")) ∧
    makeRequest threeFailSeq 5 4 = some (some (.str "ok"), [2, 4, 8]) :=
  ⟨⟨by decide, by decide, rfl⟩,
    c4_success_after_transients threeFailSeq 5 3 (.str "ok") (by decide) (by decide) rfl⟩

/-! ## Claim C9: the memory watchdog -/

/-- The waiting loop can only ever return `True`: each of its three exits
(`usage is None`, `usage ≤ max_percent`, `elapsed ≥ max_time_seconds`)
returns `True`, so no amount of fuel produces `False`. -/
theorem wait_memoryGo_ne_false (samples : Nat → Except String Nat) (clock : Nat → Nat)
    (mp mt : Nat) : ∀ fuel i, wait_memoryGo samples clock mp mt fuel i ≠ some false := by
  intro fuel
  induction fuel with
  | zero => intro i h; exact Option.noConfusion h
  | succ fuel ih =>
    intro i
    simp only [wait_memoryGo]
    cases get_memory (samples i) with
    | none => exact fun h => Bool.noConfusion (Option.some.inj h)
    | some usage =>
      by_cases h1 : usage ≤ mp
      · simp [h1]
      · by_cases h2 : clock i ≥ mt
        · simp [h1, h2]
        · simp only [if_neg h1, if_neg h2]
          exact ih (i + 1)

/-- Once the observed elapsed time reaches the deadline, the loop exits with
`True` within one more iteration, whatever the samples are. -/
theorem wait_memoryGo_times_out (samples : Nat → Except String Nat) (clock : Nat → Nat)
    (mp mt : Nat) : ∀ (n i fuel : Nat), mt ≤ clock (i + n) → n < fuel →
      wait_memoryGo samples clock mp mt fuel i = some true := by
  intro n
  induction n with
  | zero =>
    intro i fuel hc hf
    obtain ⟨f, rfl⟩ : ∃ f, fuel = f + 1 := ⟨fuel - 1, by omega⟩
    simp only [wait_memoryGo]
    cases get_memory (samples i) with
    | none => rfl
    | some usage =>
      by_cases h1 : usage ≤ mp
      · simp [h1]
      · have h2 : clock i ≥ mt := by simpa using hc
        simp [h1, h2]
  | succ n ih =>
    intro i fuel hc hf
    obtain ⟨f, rfl⟩ : ∃ f, fuel = f + 1 := ⟨fuel - 1, by omega⟩
    simp only [wait_memoryGo]
    cases get_memory (samples i) with
    | none => rfl
    | some usage =>
      by_cases h1 : usage ≤ mp
      · simp [h1]
      · by_cases h2 : clock i ≥ mt
        · simp [h1, h2]
        · simp only [if_neg h1, if_neg h2]
          exact ih (i + 1) f (by rwa [show i + 1 + n = i + (n + 1) by omega]) (by omega)

/-- Since every iteration sleeps 5 seconds, the observed elapsed time after
`n` iterations is at least `5 * n`. -/
theorem clock_ge_of_progress (clock : Nat → Nat)
    (h : ∀ i, clock i + 5 ≤ clock (i + 1)) : ∀ n, 5 * n ≤ clock n := by
  intro n
  induction n with
  | zero => omega
  | succ n ih =>
    have := h n
    omega

/-- C9: the watchdog never raises to its caller.  `get_memory` turns any
psutil exception into `None`; the waiting loop can never return `False`;
and — because each iteration sleeps 5 seconds, so the observed elapsed time
keeps growing — the loop returns `True` within `max_wait_minutes * 60 + 1`
iterations for every sequence of samples. -/
theorem c9_watchdog_never_fails (samples : Nat → Except String Nat) (clock : Nat → Nat)
    (mp mw : Nat) (hclock : ∀ i, clock i + 5 ≤ clock (i + 1)) :
    (∀ e, get_memory (.error e) = none) ∧
    (∀ fuel i, wait_memoryGo samples clock mp (mw * 60) fuel i ≠ some false) ∧
    wait_memory samples clock mp mw (mw * 60 + 1) = some true := by
  refine ⟨fun _ => rfl, wait_memoryGo_ne_false samples clock mp (mw * 60), ?_⟩
  have h5 := clock_ge_of_progress clock hclock (mw * 60)
  have h6 : mw * 60 ≤ clock (mw * 60) := by omega
  exact wait_memoryGo_times_out samples clock mp (mw * 60) (mw * 60) 0 (mw * 60 + 1)
    (by simpa using h6) (by omega)

/-- Witness for C9: memory pinned at 95% with threshold 90 and a 5-minute
deadline; the wait still completes with `True`. -/
theorem c9_watchdog_never_fails_witness :
    (∀ i, (fun j => 5 * j) i + 5 ≤ (fun j => 5 * j) (i + 1)) ∧
    ((∀ e, get_memory (.error e) = none) ∧
      (∀ fuel i, wait_memoryGo (fun _ => .ok 95) (fun j => 5 * j) 90 (5 * 60) fuel i ≠ some false) ∧
      wait_memory (fun _ => .ok 95) (fun j => 5 * j) 90 5 (5 * 60 + 1) = some true) :=
  ⟨(fun i => by simp; omega),
    c9_watchdog_never_fails (fun _ => .ok 95) (fun j => 5 * j) 90 5 (fun i => by simp; omega)⟩

/-! ## Claim C8: the relational load -/

/-- C8: when any expected relational column is absent from the table, the
column selection `data_df[colunas_relacionais]` raises `KeyError` before
`to_sql` runs, so the load fails and nothing is appended: the result is an
error for every prior sink state, never a new row list. -/
theorem c8_schema_mismatch (data_df : Table) (sink : List DbRow)
    (h : ∃ k ∈ colunas_relacionais, alistLookup k data_df = none) :
    postgresql_load data_df sink = .error .keyError := by
  rcases h with ⟨k, hk, hnone⟩
  have hall : ¬(colunas_relacionais.all (fun c => (alistLookup c data_df).isSome) = true) := by
    intro hall
    have := List.all_eq_true.mp hall k hk
    rw [hnone] at this
    exact Bool.noConfusion this
  simp only [postgresql_load, if_neg hall]

/-- Witness for C8, the specification's scenario: a table missing the
`email` column makes the relational load fail with `KeyError`, writing
nothing to an empty sink. -/
theorem c8_schema_mismatch_witness :
    (∃ k ∈ colunas_relacionais, alistLookup k missingEmailTable = none) ∧
    postgresql_load missingEmailTable [] = .error .keyError :=
  ⟨⟨"email", by decide, rfl⟩,
    c8_schema_mismatch missingEmailTable [] ⟨"email", by decide, rfl⟩⟩

/-! ## Claim C10: the driver's no-data branch -/

/-- C10: the driver's `"Sem dados da API."` branch is taken exactly when the
fetch result is falsy (Python `None` or an empty/zero value, such as an
empty mapping) — not when `results` is empty.  The payload
`{"results": []}` is a non-empty, truthy mapping: the driver proceeds to
`data_transform`, which yields the empty zero-column table, and then to
`postgresql_load`, which raises `KeyError` because every expected column is
absent — the run fails instead of stopping with "no data". -/
theorem c10_no_data_iff_falsy (fetched : Option JValue) (sink : List DbRow) :
    (runDriver fetched sink = .noData ↔
      fetched = none ∨ ∃ d, fetched = some d ∧ pyTruthy d = false) ∧
    data_transform emptyResultsPayload = .ok [] ∧
    runDriver (some emptyResultsPayload) sink = .failed .keyError := by
  refine ⟨?_, rfl, rfl⟩
  cases fetched with
  | none => simp [runDriver]
  | some d =>
    by_cases hd : pyTruthy d
    · constructor
      · intro h
        exfalso
        simp only [runDriver, if_pos hd] at h
        cases ht : data_transform d with
        | error e =>
          simp only [ht] at h
          exact DriverOutcome.noConfusion h
        | ok df =>
          simp only [ht] at h
          cases hl : postgresql_load df sink with
          | error e =>
            simp only [hl] at h
            exact DriverOutcome.noConfusion h
          | ok s' =>
            simp only [hl] at h
            exact DriverOutcome.noConfusion h
      · rintro (h | ⟨d', hd', hfalse⟩)
        · exact Option.noConfusion h
        · rw [← Option.some.inj hd'] at hfalse
          rw [hfalse] at hd
          exact Bool.noConfusion hd
    · have hfalse : pyTruthy d = false := by simpa using hd
      simp only [runDriver, if_neg hd]
      exact ⟨fun _ => Or.inr ⟨d, rfl, hfalse⟩, fun _ => by trivial⟩

/-! ## Claim C6: malformed payloads in `data_transform` -/

/-- C6, counterexample.  The claim says `data_transform` raises whenever the
value under `results` is not an array.  But `pandas.json_normalize` accepts
a dict and treats it as a single record: the payload
`{"results": {"name": "x"}}` is transformed into a one-row table with no
error raised. -/
theorem c6_counterexample :
    data_transform dictResultsPayload = .ok [("name", [.str "x"])] := rfl

/-- C6, amended.  `data_transform` raises `KeyError` when the payload lacks
a `results` key, and `json_normalize` raises `NotImplementedError` when the
`results` value is a string, an integer, or null; but a `results` value
that is an object (a dict) is accepted and wrapped as a single record. -/
theorem c6_missing_or_scalar_results (fs : JFields) :
    (JFields.lookup "results" fs = none → data_transform (.obj fs) = .error .keyError) ∧
    (∀ s, JFields.lookup "results" fs = some (.str s) →
      data_transform (.obj fs) = .error .notImplementedError) ∧
    (∀ n, JFields.lookup "results" fs = some (.int n) →
      data_transform (.obj fs) = .error .notImplementedError) ∧
    (JFields.lookup "results" fs = some .null →
      data_transform (.obj fs) = .error .notImplementedError) ∧
    (∀ gs, jsonNormalize (.obj gs) = jsonNormalize (.arr (.cons (.obj gs) .nil))) :=
  ⟨fun h => by simp only [data_transform, h]; try rfl,
    fun s h => by simp only [data_transform, h]; try rfl,
    fun n h => by simp only [data_transform, h]; try rfl,
    fun h => by simp only [data_transform, h]; try rfl,
    fun gs => rfl⟩

/-- Witness for the amended C6: a payload whose `results` value is the
string `"abc"` makes `data_transform` raise. -/
theorem c6_missing_or_scalar_results_witness :
    JFields.lookup "results" strResultsFields = some (.str "abc") ∧
    data_transform (.obj strResultsFields) = .error .notImplementedError :=
  ⟨rfl, (c6_missing_or_scalar_results strResultsFields).2.1 "abc" rfl⟩

/-! ## Lemmas about column-name cleaning -/

/-- `Char.ofNat` of a small scalar value reads back as the same `Nat`. -/
theorem toNat_ofNat_of_lt {n : Nat} (h : n < 55296) : (Char.ofNat n).toNat = n := by
  rw [Char.ofNat, dif_pos (Or.inl h)]
  rfl

/-- Lowering a character other than `'.'` cannot produce `'.'`. -/
theorem toLower_ne_dot (c : Char) (h : c ≠ '.') : Char.toLower c ≠ '.' := by
  unfold Char.toLower
  by_cases hc : c.toNat ≥ 65 ∧ c.toNat ≤ 90
  · rw [if_pos hc]
    intro heq
    have h1 : (Char.ofNat (c.toNat + 32)).toNat = c.toNat + 32 :=
      toNat_ofNat_of_lt (by omega)
    rw [heq] at h1
    have h2 : ('.' : Char).toNat = 46 := rfl
    omega
  · rw [if_neg hc]
    exact h

/-- Lowering a character that is not an upper-case basic-latin letter is the
identity. -/
theorem toLower_eq_self (c : Char) (h : ¬(c.toNat ≥ 65 ∧ c.toNat ≤ 90)) :
    Char.toLower c = c := by
  unfold Char.toLower
  rw [if_neg h]

/-- `Char.toLower` is idempotent. -/
theorem toLower_idem (c : Char) : Char.toLower (Char.toLower c) = Char.toLower c := by
  by_cases hc : c.toNat ≥ 65 ∧ c.toNat ≤ 90
  · have h1 : (Char.toLower c).toNat = c.toNat + 32 := by
      unfold Char.toLower
      rw [if_pos hc]
      exact toNat_ofNat_of_lt (by omega)
    exact toLower_eq_self _ (by omega)
  · rw [toLower_eq_self c hc]
    exact toLower_eq_self c hc

/-- The dot-replacement map never returns `'.'`. -/
theorem dotToUnderscore_ne_dot (c : Char) : dotToUnderscore c ≠ '.' := by
  unfold dotToUnderscore
  by_cases h : c = '.'
  · rw [if_pos h]; decide
  · rw [if_neg h]; exact h

/-- Dot replacement fixes any character other than `'.'`. -/
theorem dotToUnderscore_eq_self (c : Char) (h : c ≠ '.') : dotToUnderscore c = c := by
  unfold dotToUnderscore
  rw [if_neg h]

/-- The head of what `dropWhile` leaves does not satisfy the predicate. -/
theorem dropWhile_cons_head {α : Type} {p : α → Bool} {l : List α} {a : α} {t : List α}
    (h : l.dropWhile p = a :: t) : p a = false := by
  induction l with
  | nil => simp [List.dropWhile] at h
  | cons x xs ih =>
    rw [List.dropWhile_cons] at h
    by_cases hx : p x = true
    · rw [if_pos hx] at h
      exact ih h
    · rw [if_neg hx] at h
      injection h with h1 _
      subst h1
      simpa using hx

/-- `dropWhile` is idempotent. -/
theorem dropWhile_idem {α : Type} (p : α → Bool) (l : List α) :
    (l.dropWhile p).dropWhile p = l.dropWhile p := by
  cases h : l.dropWhile p with
  | nil => rfl
  | cons a t =>
    have ha := dropWhile_cons_head h
    rw [List.dropWhile_cons, if_neg (by simp [ha])]

/-- Python `strip` is idempotent. -/
theorem stripChars_idem (l : List Char) : stripChars (stripChars l) = stripChars l := by
  unfold stripChars
  cases hm : l.dropWhile Char.isWhitespace with
  | nil => rfl
  | cons a t =>
    have ha := dropWhile_cons_head hm
    set dr := (a :: t).reverse.dropWhile Char.isWhitespace with hdr
    have hsplit : a :: t = dr.reverse ++ ((a :: t).reverse.takeWhile Char.isWhitespace).reverse := by
      have htd := List.takeWhile_append_dropWhile Char.isWhitespace (a :: t).reverse
      calc a :: t = ((a :: t).reverse).reverse := by rw [List.reverse_reverse]
        _ = ((a :: t).reverse.takeWhile Char.isWhitespace ++ dr).reverse := by rw [hdr, htd]
        _ = dr.reverse ++ ((a :: t).reverse.takeWhile Char.isWhitespace).reverse := by
              rw [List.reverse_append]
    have h1 : dr.reverse.dropWhile Char.isWhitespace = dr.reverse := by
      cases hr : dr.reverse with
      | nil => rfl
      | cons b t' =>
        have hb : b = a := by
          rw [hr] at hsplit
          rw [List.cons_append] at hsplit
          exact ((List.cons.inj hsplit).1).symm
        rw [List.dropWhile_cons, if_neg (by rw [hb]; simp [ha])]
    rw [h1, List.reverse_reverse, hdr, dropWhile_idem]

/-- Stripping only removes characters: membership is preserved. -/
theorem stripChars_subset (l : List Char) : ∀ c ∈ stripChars l, c ∈ l := by
  intro c hc
  unfold stripChars at hc
  rw [List.mem_reverse] at hc
  have hc2 : c ∈ (l.dropWhile Char.isWhitespace).reverse :=
    (List.dropWhile_sublist _).subset hc
  rw [List.mem_reverse] at hc2
  exact (List.dropWhile_sublist _).subset hc2

/-- Mapping a function that fixes every element of a list is the identity. -/
theorem map_fixed {α : Type} {f : α → α} (l : List α) (h : ∀ c ∈ l, f c = c) :
    l.map f = l := by
  induction l with
  | nil => rfl
  | cons a t ih =>
    rw [List.map_cons, h a (by simp), ih (fun c hc => h c (by simp [hc]))]

/-- Every character of a cleaned column name is the lowering of a
dot-replaced character. -/
theorem mem_cleanCol (s : String) :
    ∀ c ∈ (cleanCol s).data, ∃ c₀, c = Char.toLower (dotToUnderscore c₀) := by
  intro c hc
  have hdata : (cleanCol s).data = stripChars ((s.data.map dotToUnderscore).map Char.toLower) := rfl
  rw [hdata] at hc
  have hmem := stripChars_subset _ c hc
  rw [List.mem_map] at hmem
  obtain ⟨c1, hc1, rfl⟩ := hmem
  rw [List.mem_map] at hc1
  obtain ⟨c₀, _, rfl⟩ := hc1
  exact ⟨c₀, rfl⟩

/-- A cleaned column name contains no literal dot: replacing dots again is
the identity. -/
theorem replaceDots_cleanCol (s : String) : replaceDots (cleanCol s) = cleanCol s := by
  have hfix : ∀ c ∈ (cleanCol s).data, dotToUnderscore c = c := by
    intro c hc
    obtain ⟨c₀, rfl⟩ := mem_cleanCol s c hc
    exact dotToUnderscore_eq_self _ (toLower_ne_dot _ (dotToUnderscore_ne_dot c₀))
  show String.mk ((cleanCol s).data.map dotToUnderscore) = cleanCol s
  rw [map_fixed _ hfix]

/-- A cleaned column name is already lower-case: lowering again is the
identity. -/
theorem lowerStr_cleanCol (s : String) : lowerStr (cleanCol s) = cleanCol s := by
  have hfix : ∀ c ∈ (cleanCol s).data, Char.toLower c = c := by
    intro c hc
    obtain ⟨c₀, rfl⟩ := mem_cleanCol s c hc
    exact toLower_idem _
  show String.mk ((cleanCol s).data.map Char.toLower) = cleanCol s
  rw [map_fixed _ hfix]

/-- A cleaned column name has no leading or trailing whitespace: stripping
again is the identity. -/
theorem stripStr_cleanCol (s : String) : stripStr (cleanCol s) = cleanCol s := by
  show String.mk (stripChars (stripChars ((lowerStr (replaceDots s)).data))) = cleanCol s
  rw [stripChars_idem]
  rfl

/-- The whole column renaming is idempotent. -/
theorem cleanCol_idem (s : String) : cleanCol (cleanCol s) = cleanCol s := by
  show stripStr (lowerStr (replaceDots (cleanCol s))) = cleanCol s
  rw [replaceDots_cleanCol, lowerStr_cleanCol, stripStr_cleanCol]

/-- What an `int64` verdict means. -/
theorem inferDtype_eq_int64 {col : List JValue} (h : inferDtype col = .int64) :
    col.all fitsInt64 = true ∧ col ≠ [] := by
  unfold inferDtype at h
  by_cases h1 : (col.all fitsInt64 && !col.isEmpty) = true
  · obtain ⟨ha, hb⟩ := Bool.and_eq_true_iff.mp h1
    refine ⟨ha, fun hnil => ?_⟩
    subst hnil
    simp at hb
  · rw [if_neg h1] at h
    by_cases h2 : (col.all fitsUInt64 && !col.isEmpty) = true
    · rw [if_pos h2] at h
      exact Dtype.noConfusion h
    · rw [if_neg h2] at h
      by_cases h3 : ((col.all fun v => v.isNull || fitsInt64 v) && col.any JValue.isInt) = true
      · rw [if_pos h3] at h
        exact Dtype.noConfusion h
      · rw [if_neg h3] at h
        exact Dtype.noConfusion h

/-- What a `float64` verdict means: signed-range ints or nulls throughout,
with at least one int and — since the all-int case would have been `int64` —
at least one null.  A `float64` column is therefore exactly a column mixing
integers with nulls. -/
theorem inferDtype_eq_float64 {col : List JValue} (h : inferDtype col = .float64) :
    (col.all fun v => v.isNull || fitsInt64 v) = true ∧
    col.any JValue.isInt = true ∧ col.any JValue.isNull = true := by
  unfold inferDtype at h
  by_cases h1 : (col.all fitsInt64 && !col.isEmpty) = true
  · rw [if_pos h1] at h
    exact Dtype.noConfusion h
  · rw [if_neg h1] at h
    by_cases h2 : (col.all fitsUInt64 && !col.isEmpty) = true
    · rw [if_pos h2] at h
      exact Dtype.noConfusion h
    · rw [if_neg h2] at h
      by_cases h3 : ((col.all fun v => v.isNull || fitsInt64 v) && col.any JValue.isInt) = true
      · obtain ⟨hall, hany⟩ := Bool.and_eq_true_iff.mp h3
        refine ⟨hall, hany, ?_⟩
        obtain ⟨w, hw, _⟩ := List.any_eq_true.mp hany
        have hnonempty : (!col.isEmpty) = true := by
          cases col with
          | nil => exact absurd hw (List.not_mem_nil w)
          | cons a b => rfl
        have hnotall : ¬(col.all fitsInt64 = true) := by
          intro hcall
          exact h1 (Bool.and_eq_true_iff.mpr ⟨hcall, hnonempty⟩)
        obtain ⟨v, hv, hvfits⟩ : ∃ v ∈ col, fitsInt64 v = false := by
          by_contra hno
          push_neg at hno
          apply hnotall
          apply List.all_eq_true.mpr
          intro x hx
          cases hfx : fitsInt64 x with
          | true => rfl
          | false => exact absurd hfx (hno x hx)
        have hvnull : v.isNull = true := by
          have hor := List.all_eq_true.mp hall v hv
          simpa [hvfits] using hor
        exact List.any_eq_true.mpr ⟨v, hv, hvnull⟩
      · rw [if_neg h3] at h
        exact Dtype.noConfusion h

/-- `astype(str)` is not applied to an `object` column. -/
theorem astypeCol_of_object {col : List JValue} (h : inferDtype col = .object) :
    astypeCol col = col := by
  simp only [astypeCol, h]
  rfl

/-- `astype(str)` is not applied to a `uint64` column either:
`select_dtypes(include=['int64', 'float64'])` does not select it. -/
theorem astypeCol_of_uint64 {col : List JValue} (h : inferDtype col = .uint64) :
    astypeCol col = col := by
  simp only [astypeCol, h]
  rfl

/-- An all-string column has dtype `object`. -/
theorem inferDtype_of_all_str {col : List JValue} (hne : col ≠ [])
    (h : ∀ v ∈ col, ∃ s, v = JValue.str s) : inferDtype col = .object := by
  obtain ⟨v₀, rest, rfl⟩ : ∃ v₀ rest, col = v₀ :: rest := by
    cases col with
    | nil => exact absurd rfl hne
    | cons a b => exact ⟨a, b, rfl⟩
  obtain ⟨s₀, rfl⟩ := h _ (List.mem_cons_self _ _)
  have hA : ¬(((JValue.str s₀ :: rest).all fitsInt64 &&
      !(JValue.str s₀ :: rest).isEmpty) = true) := by
    intro hc
    obtain ⟨hall, _⟩ := Bool.and_eq_true_iff.mp hc
    have h0 := List.all_eq_true.mp hall _ (List.mem_cons_self _ _)
    simp [fitsInt64] at h0
  have hA2 : ¬(((JValue.str s₀ :: rest).all fitsUInt64 &&
      !(JValue.str s₀ :: rest).isEmpty) = true) := by
    intro hc
    obtain ⟨hall, _⟩ := Bool.and_eq_true_iff.mp hc
    have h0 := List.all_eq_true.mp hall _ (List.mem_cons_self _ _)
    simp [fitsUInt64] at h0
  have hB : ¬((((JValue.str s₀ :: rest).all fun v => v.isNull || fitsInt64 v) &&
      (JValue.str s₀ :: rest).any JValue.isInt) = true) := by
    intro hc
    obtain ⟨hall, _⟩ := Bool.and_eq_true_iff.mp hc
    have h0 := List.all_eq_true.mp hall _ (List.mem_cons_self _ _)
    simp [JValue.isNull, fitsInt64] at h0
  unfold inferDtype
  rw [if_neg hA, if_neg hA2, if_neg hB]

/-- Applying the numeric-to-string coercion twice is the same as applying it
once: a coerced column is all strings, hence `object`, hence untouched. -/
theorem astypeCol_idem (col : List JValue) : astypeCol (astypeCol col) = astypeCol col := by
  cases hdt : inferDtype col with
  | object => rw [astypeCol_of_object hdt, astypeCol_of_object hdt]
  | uint64 => rw [astypeCol_of_uint64 hdt, astypeCol_of_uint64 hdt]
  | int64 =>
    obtain ⟨hall, hne⟩ := inferDtype_eq_int64 hdt
    have hmap : astypeCol col = col.map (astypeStrVal .int64) := by
      simp only [astypeCol, hdt]
      rfl
    have hstr : ∀ v ∈ col.map (astypeStrVal .int64), ∃ s, v = JValue.str s := by
      intro v hv
      rw [List.mem_map] at hv
      obtain ⟨w, hw, rfl⟩ := hv
      have hfits := List.all_eq_true.mp hall w hw
      cases w with
      | int n => exact ⟨toString n, rfl⟩
      | null => simp [fitsInt64] at hfits
      | str s => simp [fitsInt64] at hfits
      | arr es => simp [fitsInt64] at hfits
      | obj gs => simp [fitsInt64] at hfits
    have hne' : col.map (astypeStrVal .int64) ≠ [] := by
      intro h0
      exact hne (List.map_eq_nil_iff.mp h0)
    rw [hmap, astypeCol_of_object (inferDtype_of_all_str hne' hstr)]
  | float64 =>
    obtain ⟨hall, hany, _⟩ := inferDtype_eq_float64 hdt
    have hmap : astypeCol col = col.map (astypeStrVal .float64) := by
      simp only [astypeCol, hdt]
      rfl
    have hstr : ∀ v ∈ col.map (astypeStrVal .float64), ∃ s, v = JValue.str s := by
      intro v hv
      rw [List.mem_map] at hv
      obtain ⟨w, hw, rfl⟩ := hv
      have hin := List.all_eq_true.mp hall w hw
      cases w with
      | int n => exact ⟨intAsFloatStr n, rfl⟩
      | null => exact ⟨"nan", rfl⟩
      | str s => simp [JValue.isNull, fitsInt64] at hin
      | arr es => simp [JValue.isNull, fitsInt64] at hin
      | obj gs => simp [JValue.isNull, fitsInt64] at hin
    have hne' : col.map (astypeStrVal .float64) ≠ [] := by
      intro h0
      have h1 : col = [] := List.map_eq_nil_iff.mp h0
      subst h1
      simp at hany
    rw [hmap, astypeCol_of_object (inferDtype_of_all_str hne' hstr)]

/-- The coercion of a scalar cell is never an object. -/
theorem astypeStrVal_not_obj (dt : Dtype) (w : JValue) (h : w.isObj = false) :
    (astypeStrVal dt w).isObj = false := by
  cases dt <;> cases w <;> first | rfl | exact h

/-- `astype(str)` preserves the number of cells. -/
theorem astypeCol_length (col : List JValue) : (astypeCol col).length = col.length := by
  rw [show astypeCol col = if (inferDtype col).isNumeric = true then
      col.map (astypeStrVal (inferDtype col)) else col from rfl]
  by_cases hnum : (inferDtype col).isNumeric = true
  · rw [if_pos hnum, List.length_map]
  · rw [if_neg hnum]

/-- `astype(str)` keeps cells object-free. -/
theorem astypeCol_values_not_obj {col : List JValue} (h : ∀ v ∈ col, v.isObj = false) :
    ∀ v ∈ astypeCol col, v.isObj = false := by
  intro v hv
  rw [show astypeCol col = if (inferDtype col).isNumeric = true then
      col.map (astypeStrVal (inferDtype col)) else col from rfl] at hv
  by_cases hnum : (inferDtype col).isNumeric = true
  · rw [if_pos hnum, List.mem_map] at hv
    obtain ⟨w, hw, rfl⟩ := hv
    exact astypeStrVal_not_obj _ w (h w hw)
  · rw [if_neg hnum] at hv
    exact h v hv


/-! ## Claim C5: what `data_transform` does to a well-formed payload -/

/-- `data_transform` in terms of its stages: extract `results`, normalize,
rename every column with `cleanCol`, coerce numeric columns with
`astype(str)`. -/
theorem data_transform_eq (fs : JFields) (rv : JValue) (t₀ : Table)
    (hres : JFields.lookup "results" fs = some rv)
    (hnorm : jsonNormalize rv = .ok t₀) :
    data_transform (.obj fs) = .ok (t₀.map (fun c => (cleanCol c.1, astypeCol c.2))) := by
  simp only [data_transform, hres, hnorm]
  rw [List.map_map]
  rfl

/-- C5, counterexample.  The claim says every integer field becomes its
decimal string and null fields stay unchanged, for every well-formed
payload.  The payload `{"results": [{"a": 1}, {"a": null}]}` is well-formed,
but pandas builds column `a` with dtype `float64` (the null becomes `NaN`),
so `astype(str)` renders the integer as `"1.0"` — not its decimal
representation `"1"` — and turns the null into the string `"nan"`. -/
theorem c5_counterexample :
    data_transform mixedPayload = .ok [("a", [.str "1.0", .str "nan"])] ∧
    JValue.str "nan" ≠ JValue.null ∧ JValue.str "1.0" ≠ JValue.str "1" := by
  refine ⟨rfl, fun h => ?_, fun h => ?_⟩
  · exact JValue.noConfusion h
  · injection h with h'
    exact absurd h' (by decide)

/-- C5, amended.  For a payload accepted by the model (a `results` array of
dict records flattening to one shared, collision-free key list, with
null / string / integer / array values) in which no column mixes integers
with nulls — the counterexample shows a mixing column becomes `float64` and
is rendered as floats and `"nan"` strings — `data_transform` returns the
normalized table in which every column name is the cleaned original —
lower-case, with no leading or trailing whitespace and no literal dot — and
every column either is an `int64` column (non-empty, all integers in the
signed 64-bit range) whose values become their decimal string
representations, or is left entirely unchanged: strings, nulls and arrays
are untouched, and a column of integers beyond the `int64` range gets
dtype `uint64` or `object`, which `select_dtypes(['int64', 'float64'])`
never selects. -/
theorem c5_amended_normalization (fs : JFields) (rv : JValue) (t₀ : Table)
    (hres : JFields.lookup "results" fs = some rv)
    (hnorm : jsonNormalize rv = .ok t₀)
    (hnomix : ∀ c ∈ t₀, ¬(c.2.any JValue.isInt = true ∧ c.2.any JValue.isNull = true)) :
    data_transform (.obj fs) = .ok (t₀.map (fun c => (cleanCol c.1, astypeCol c.2))) ∧
    ∀ c ∈ t₀,
      (replaceDots (cleanCol c.1) = cleanCol c.1 ∧
        lowerStr (cleanCol c.1) = cleanCol c.1 ∧
        stripStr (cleanCol c.1) = cleanCol c.1) ∧
      ((inferDtype c.2 = .int64 ∧
          astypeCol c.2 = c.2.map (fun v =>
            match v with
            | JValue.int n => JValue.str (toString n)
            | w => w)) ∨
        astypeCol c.2 = c.2) := by
  refine ⟨data_transform_eq fs rv t₀ hres hnorm, fun c hc => ?_⟩
  refine ⟨⟨replaceDots_cleanCol _, lowerStr_cleanCol _, stripStr_cleanCol _⟩, ?_⟩
  cases hdt : inferDtype c.2 with
  | int64 =>
    refine Or.inl ⟨rfl, ?_⟩
    simp only [astypeCol, hdt, Dtype.isNumeric, if_pos]
    exact List.map_congr_left (fun v _ => by cases v <;> rfl)
  | uint64 => exact Or.inr (astypeCol_of_uint64 hdt)
  | float64 =>
    obtain ⟨_, hint, hnull⟩ := inferDtype_eq_float64 hdt
    exact absurd ⟨hint, hnull⟩ (hnomix c hc)
  | object => exact Or.inr (astypeCol_of_object hdt)

/-- Witness for the amended C5, the specification's scenario: the Ana
payload normalizes to exactly one row
`{name_first: "Ana", name_last: "Lima", age: "30"}`. -/
theorem c5_amended_normalization_witness :
    (JFields.lookup "results" anaFields = some anaResults ∧
      jsonNormalize anaResults = .ok anaRawTable ∧
      ∀ c ∈ anaRawTable, ¬(c.2.any JValue.isInt = true ∧ c.2.any JValue.isNull = true)) ∧
    data_transform anaPayload = .ok anaTable :=
  ⟨⟨rfl, rfl, by decide⟩,
    (c5_amended_normalization anaFields anaResults anaRawTable rfl rfl (by decide)).1⟩

/-! ## Lemmas for idempotence (Claim C7) -/

/-- Flattening an entry whose value is not an object is the identity. -/
theorem flattenEntry_scalar (k : String) (v : JValue) (h : v.isObj = false) :
    flattenEntry k v = [(k, v)] := by
  cases v with
  | obj fs => exact absurd h (by simp [JValue.isObj])
  | null => rfl
  | str s => rfl
  | int n => rfl
  | arr es => rfl

/-- Flattening a record with no nested objects is the identity. -/
theorem flattenFields_ofList (r : List (String × JValue))
    (h : ∀ p ∈ r, p.2.isObj = false) :
    flattenFields (JFields.ofList r) = r := by
  induction r with
  | nil => rfl
  | cons p rest ih =>
    obtain ⟨k, v⟩ := p
    show flattenEntry k v ++ flattenFields (JFields.ofList rest) = (k, v) :: rest
    rw [flattenEntry_scalar k v (h (k, v) (List.mem_cons_self _ _)),
      ih (fun q hq => h q (List.mem_cons_of_mem _ hq))]
    rfl

/-- Every value emitted by `nested_to_record` is a scalar: objects are
always expanded, never stored in a cell.  (Strong induction on the size of
the record, to cross the mutual recursion.) -/
theorem flattenFields_values_not_obj_aux :
    ∀ (n : Nat) (fs : JFields), sizeOf fs ≤ n → ∀ p ∈ flattenFields fs, p.2.isObj = false := by
  intro n
  induction n with
  | zero =>
    intro fs hfs p _
    exfalso
    cases fs <;> simp at hfs
  | succ n ih =>
    intro fs hfs p hp
    cases fs with
    | fnil => simp [flattenFields] at hp
    | fcons k v rest =>
      rw [show flattenFields (.fcons k v rest) = flattenEntry k v ++ flattenFields rest from rfl,
        List.mem_append] at hp
      have hrest : sizeOf rest ≤ n := by
        simp at hfs
        omega
      rcases hp with hp | hp
      · cases v with
        | obj gs =>
          rw [show flattenEntry k (JValue.obj gs) =
              (flattenFields gs).map (fun q => (k ++ "." ++ q.1, q.2)) from rfl,
            List.mem_map] at hp
          obtain ⟨q, hq, rfl⟩ := hp
          have hgs : sizeOf gs ≤ n := by
            simp at hfs
            omega
          exact ih gs hgs q hq
        | null =>
          rw [flattenEntry_scalar k JValue.null rfl, List.mem_singleton] at hp
          subst hp; rfl
        | str s =>
          rw [flattenEntry_scalar k (JValue.str s) rfl, List.mem_singleton] at hp
          subst hp; rfl
        | int m =>
          rw [flattenEntry_scalar k (JValue.int m) rfl, List.mem_singleton] at hp
          subst hp; rfl
        | arr es =>
          rw [flattenEntry_scalar k (JValue.arr es) rfl, List.mem_singleton] at hp
          subst hp; rfl
      · exact ih rest hrest p hp

/-- Every flat record produced by `flattenRecords` is the flattening of some
record. -/
theorem flattenRecords_ok_flatten (records : List JValue) :
    ∀ (flats : List (List (String × JValue))), flattenRecords records = .ok flats →
      ∀ f ∈ flats, ∃ fs, f = flattenFields fs := by
  induction records with
  | nil =>
    intro flats h f hf
    injection h with h'
    subst h'
    simp at hf
  | cons r rest ih =>
    intro flats h f hf
    cases r with
    | obj fs =>
      cases hr : flattenRecords rest with
      | ok flats' =>
        simp only [flattenRecords, hr] at h
        injection h with h'
        subst h'
        rcases List.mem_cons.mp hf with rfl | hf'
        · exact ⟨fs, rfl⟩
        · exact ih flats' hr f hf'
      | error e =>
        simp only [flattenRecords, hr] at h
        exact Except.noConfusion h
    | null => exact absurd h (by simp [flattenRecords])
    | str s => exact absurd h (by simp [flattenRecords])
    | int n => exact absurd h (by simp [flattenRecords])
    | arr es => exact absurd h (by simp [flattenRecords])

/-- No cell of a successfully flattened record list holds an object. -/
theorem flattenRecords_values_not_obj (records : List JValue)
    (flats : List (List (String × JValue))) (h : flattenRecords records = .ok flats) :
    ∀ f ∈ flats, ∀ p ∈ f, p.2.isObj = false := by
  intro f hf p hp
  obtain ⟨fs, rfl⟩ := flattenRecords_ok_flatten records flats h f hf
  exact flattenFields_values_not_obj_aux (sizeOf fs) fs (Nat.le_refl _) p hp

/-- Inversion of a successful `jsonNormalize`: either the frame is empty, or
it was built from a non-empty list of flattened records sharing one
duplicate-free key list. -/
theorem jsonNormalize_ok_inv (rv : JValue) (t₀ : Table) (h : jsonNormalize rv = .ok t₀) :
    t₀ = [] ∨
    ∃ (records : List JValue) (f₀ : List (String × JValue))
      (rest : List (List (String × JValue))),
      asRecords rv = .ok records ∧
      flattenRecords records = .ok (f₀ :: rest) ∧
      ((f₀ :: rest).all (fun f => f.map Prod.fst == f₀.map Prod.fst) &&
        nodupKeys (f₀.map Prod.fst)) = true ∧
      t₀ = (f₀.map Prod.fst).map
        (fun k => (k, (f₀ :: rest).map (fun f => (alistLookup k f).getD .null))) := by
  cases hrec : asRecords rv with
  | error e =>
    simp only [jsonNormalize, hrec] at h
    exact Except.noConfusion h
  | ok records =>
    cases hfl : flattenRecords records with
    | error e =>
      simp only [jsonNormalize, hrec, hfl] at h
      exact Except.noConfusion h
    | ok flats =>
      cases flats with
      | nil =>
        simp only [jsonNormalize, hrec, hfl] at h
        injection h with h'
        exact Or.inl h'.symm
      | cons f₀ rest =>
        simp only [jsonNormalize, hrec, hfl] at h
        by_cases hcond : ((f₀ :: rest).all (fun f => f.map Prod.fst == f₀.map Prod.fst) &&
            nodupKeys (f₀.map Prod.fst)) = true
        · rw [if_pos hcond] at h
          injection h with h'
          exact Or.inr ⟨records, f₀, rest, rfl, hfl, hcond, h'.symm⟩
        · rw [if_neg hcond] at h
          exact Except.noConfusion h

/-- Inversion of a successful `data_transform`: the payload was a dict with
a `results` entry that normalized, and the result is the normalized table
renamed and coerced. -/
theorem data_transform_ok_inv (data : JValue) (t : Table) (h : data_transform data = .ok t) :
    ∃ fs rv t₀, data = .obj fs ∧ JFields.lookup "results" fs = some rv ∧
      jsonNormalize rv = .ok t₀ ∧
      t = t₀.map (fun c => (cleanCol c.1, astypeCol c.2)) := by
  cases data with
  | obj fs =>
    cases hlk : fs.lookup "results" with
    | none =>
      simp only [data_transform, hlk] at h
      exact Except.noConfusion h
    | some rv =>
      cases hnorm : jsonNormalize rv with
      | error e =>
        simp only [data_transform, hlk, hnorm] at h
        exact Except.noConfusion h
      | ok t₀ =>
        simp only [data_transform, hlk, hnorm] at h
        injection h with h'
        refine ⟨fs, rv, t₀, rfl, hlk, hnorm, ?_⟩
        rw [← h', List.map_map]
        rfl
  | null => exact Except.noConfusion h
  | str s => exact Except.noConfusion h
  | int n => exact Except.noConfusion h
  | arr es => exact Except.noConfusion h

/-- A `getD` result is a member of the list or the default. -/
theorem getD_mem_or_default {α : Type} : ∀ (l : List α) (i : Nat) (d : α),
    l.getD i d ∈ l ∨ l.getD i d = d := by
  intro l
  induction l with
  | nil => intro i d; exact Or.inr rfl
  | cons a rest ih =>
    intro i d
    cases i with
    | zero => exact Or.inl (List.mem_cons_self _ _)
    | succ i =>
      rcases ih i d with h | h
      · exact Or.inl (List.mem_cons_of_mem _ h)
      · exact Or.inr h

/-- Pointwise equal functions map lists equally. -/
theorem map_congr_mem {α β : Type} (l : List α) (f g : α → β)
    (h : ∀ a ∈ l, f a = g a) : l.map f = l.map g := by
  induction l with
  | nil => rfl
  | cons a rest ih =>
    rw [List.map_cons, List.map_cons, h a (List.mem_cons_self _ _),
      ih (fun b hb => h b (List.mem_cons_of_mem _ hb))]

/-- A successful association-list lookup is a member. -/
theorem alistLookup_some_mem {α : Type} (k : String) :
    ∀ (l : List (String × α)) (v : α), alistLookup k l = some v → (k, v) ∈ l := by
  intro l
  induction l with
  | nil => intro v h; exact Option.noConfusion h
  | cons p rest ih =>
    intro v h
    obtain ⟨k', w⟩ := p
    by_cases hk : k' = k
    · subst hk
      rw [show alistLookup k' ((k', w) :: rest) = some w from by simp [alistLookup]] at h
      injection h with h'
      subst h'
      exact List.mem_cons_self _ _
    · rw [show alistLookup k ((k', w) :: rest) = alistLookup k rest from by
        simp [alistLookup, hk]] at h
      exact List.mem_cons_of_mem _ (ih v h)

/-- Unfolding `nodupKeys` on a cons cell. -/
theorem nodupKeys_cons {k : String} {rest : List String} (h : nodupKeys (k :: rest) = true) :
    k ∉ rest ∧ nodupKeys rest = true := by
  rw [show nodupKeys (k :: rest) = (!(rest.contains k) && nodupKeys rest) from rfl] at h
  obtain ⟨h1, h2⟩ := Bool.and_eq_true_iff.mp h
  refine ⟨fun hmem => ?_, h2⟩
  have h3 : List.elem k rest = true := List.elem_eq_true_of_mem hmem
  rw [show rest.contains k = List.elem k rest from rfl, h3] at h1
  exact Bool.noConfusion h1

/-- Reading a row keeps the column names, in order. -/
theorem rowAt_map_fst (t : Table) (i : Nat) : (rowAt t i).map Prod.fst = t.map Prod.fst := by
  unfold rowAt
  rw [List.map_map]
  rfl

/-- With duplicate-free column names, looking a column's name up in any row
finds that column's cell. -/
theorem alistLookup_rowAt : ∀ (t : Table), nodupKeys (t.map Prod.fst) = true →
    ∀ (i : Nat), ∀ c ∈ t, alistLookup c.1 (rowAt t i) = some (c.2.getD i .null) := by
  intro t
  induction t with
  | nil => intro _ _ c hc; exact absurd hc (List.not_mem_nil c)
  | cons c₀ rest ih =>
    intro hnd i c hc
    obtain ⟨hnotin, hnd'⟩ := nodupKeys_cons (by simpa using hnd)
    rcases List.mem_cons.mp hc with rfl | hc'
    · show alistLookup c.1 ((c.1, c.2.getD i JValue.null) :: rowAt rest i) =
        some (c.2.getD i JValue.null)
      simp [alistLookup]
    · have hne : c₀.1 ≠ c.1 := by
        intro he
        apply hnotin
        rw [he]
        exact List.mem_map_of_mem Prod.fst hc'
      show alistLookup c.1 ((c₀.1, c₀.2.getD i JValue.null) :: rowAt rest i) =
        some (c.2.getD i JValue.null)
      rw [show alistLookup c.1 ((c₀.1, c₀.2.getD i JValue.null) :: rowAt rest i) =
          alistLookup c.1 (rowAt rest i) from by simp [alistLookup, hne]]
      exact ih hnd' i c hc'

/-- Reading every index below the length reassembles the list. -/
theorem getD_range {α : Type} (d : α) : ∀ (l : List α),
    (List.range l.length).map (fun i => l.getD i d) = l := by
  intro l
  induction l with
  | nil => rfl
  | cons a rest ih =>
    rw [show (a :: rest).length = rest.length + 1 from rfl, List.range_succ_eq_map,
      List.map_cons, List.map_map]
    rw [show ((fun i => (a :: rest).getD i d) ∘ Nat.succ) = (fun i => rest.getD i d) from rfl]
    rw [ih]
    rfl

/-- `asRecords.go` inverts `listToJList`. -/
theorem asRecords_go_listToJList : ∀ (l : List JValue), asRecords.go (listToJList l) = l := by
  intro l
  induction l with
  | nil => rfl
  | cons v rest ih =>
    show v :: asRecords.go (listToJList rest) = v :: rest
    rw [ih]

/-- Flattening the rows of a scalar-valued table is the identity. -/
theorem flattenRecords_refeed : ∀ (l : List (List (String × JValue))),
    (∀ r ∈ l, ∀ p ∈ r, p.2.isObj = false) →
    flattenRecords (l.map (fun r => JValue.obj (JFields.ofList r))) = .ok l := by
  intro l
  induction l with
  | nil => intro _; rfl
  | cons r rest ih =>
    intro h
    have hrest := ih (fun q hq p hp => h q (List.mem_cons_of_mem _ hq) p hp)
    show flattenRecords (JValue.obj (JFields.ofList r) :: rest.map (fun r => JValue.obj (JFields.ofList r))) = _
    simp only [flattenRecords, hrest]
    rw [flattenFields_ofList r (fun p hp => h r (List.mem_cons_self _ _) p hp)]

/-- Feeding a table's rows back through `json_normalize` rebuilds the same
table, provided the column names are duplicate-free, every column has the
(positive) row count, and every cell is a scalar. -/
theorem jsonNormalize_refeed (t : Table)
    (hnd : nodupKeys (t.map Prod.fst) = true)
    (hlen : ∀ c ∈ t, c.2.length = nRows t)
    (hpos : t ≠ [] → 0 < nRows t)
    (hvals : ∀ c ∈ t, ∀ v ∈ c.2, v.isObj = false) :
    jsonNormalize (.arr (listToJList ((tableRecords t).map
      (fun r => JValue.obj (JFields.ofList r))))) = .ok t := by
  have hrowvals : ∀ r ∈ tableRecords t, ∀ p ∈ r, p.2.isObj = false := by
    intro r hr p hp
    unfold tableRecords at hr
    rw [List.mem_map] at hr
    obtain ⟨i, _, rfl⟩ := hr
    unfold rowAt at hp
    rw [List.mem_map] at hp
    obtain ⟨c, hc, rfl⟩ := hp
    show (c.2.getD i JValue.null).isObj = false
    rcases getD_mem_or_default c.2 i JValue.null with hmem | hdef
    · exact hvals c hc _ hmem
    · rw [hdef]
      rfl
  have hrec : asRecords (.arr (listToJList ((tableRecords t).map
      (fun r => JValue.obj (JFields.ofList r))))) =
      .ok ((tableRecords t).map (fun r => JValue.obj (JFields.ofList r))) := by
    show Except.ok (asRecords.go (listToJList _)) = _
    rw [asRecords_go_listToJList]
  have hfl := flattenRecords_refeed (tableRecords t) hrowvals
  cases t with
  | nil => rfl
  | cons c₀ rest =>
    have hN : 0 < c₀.2.length := hpos (by simp)
    obtain ⟨N', hN'⟩ : ∃ N', c₀.2.length = N' + 1 := ⟨c₀.2.length - 1, by omega⟩
    have hnr : nRows (c₀ :: rest) = N' + 1 := by
      rw [show nRows (c₀ :: rest) = c₀.2.length from rfl, hN']
    have hshape : tableRecords (c₀ :: rest) = rowAt (c₀ :: rest) 0 ::
        (List.range N').map (fun i => rowAt (c₀ :: rest) (i + 1)) := by
      unfold tableRecords
      rw [hnr, List.range_succ_eq_map, List.map_cons, List.map_map]
      rfl
    have hcond : ((rowAt (c₀ :: rest) 0 ::
          (List.range N').map (fun i => rowAt (c₀ :: rest) (i + 1))).all
          (fun f => f.map Prod.fst == (rowAt (c₀ :: rest) 0).map Prod.fst) &&
        nodupKeys ((rowAt (c₀ :: rest) 0).map Prod.fst)) = true := by
      apply Bool.and_eq_true_iff.mpr
      constructor
      · apply List.all_eq_true.mpr
        intro f hf
        rcases List.mem_cons.mp hf with rfl | hf'
        · exact beq_self_eq_true _
        · rw [List.mem_map] at hf'
          obtain ⟨i, _, rfl⟩ := hf'
          rw [rowAt_map_fst, rowAt_map_fst]
          exact beq_self_eq_true _
      · rw [rowAt_map_fst]
        exact hnd
    simp only [jsonNormalize, hrec, hfl]
    simp only [hshape]
    rw [if_pos hcond]
    congr 1
    rw [rowAt_map_fst, ← hshape, List.map_map]
    apply map_fixed
    intro c hc
    show (c.1, (tableRecords (c₀ :: rest)).map
      (fun f => (alistLookup c.1 f).getD JValue.null)) = c
    have hinner : (tableRecords (c₀ :: rest)).map
        (fun f => (alistLookup c.1 f).getD JValue.null) = c.2 := by
      unfold tableRecords
      rw [List.map_map]
      have hpt : ∀ i ∈ List.range (nRows (c₀ :: rest)),
          ((fun f => (alistLookup c.1 f).getD JValue.null) ∘ rowAt (c₀ :: rest)) i =
          (fun i => c.2.getD i JValue.null) i := by
        intro i _
        show (alistLookup c.1 (rowAt (c₀ :: rest) i)).getD JValue.null =
          c.2.getD i JValue.null
        rw [alistLookup_rowAt (c₀ :: rest) hnd i c hc]
        rfl
      rw [map_congr_mem _ _ _ hpt]
      rw [show nRows (c₀ :: rest) = c.2.length from (hlen c hc).symm]
      exact getD_range JValue.null c.2
    rw [hinner]

/-- Re-running the whole `data_transform` pipeline on a table whose names
are already cleaned, whose columns are uniform scalar columns, and whose
numeric coercion is already applied, returns the table unchanged. -/
theorem data_transform_refeed (t : Table)
    (hnd : nodupKeys (t.map Prod.fst) = true)
    (hnames : ∀ c ∈ t, cleanCol c.1 = c.1)
    (hlen : ∀ c ∈ t, c.2.length = nRows t)
    (hpos : t ≠ [] → 0 < nRows t)
    (hvals : ∀ c ∈ t, ∀ v ∈ c.2, v.isObj = false)
    (hastype : ∀ c ∈ t, astypeCol c.2 = c.2) :
    data_transform (tableToPayload t) = .ok t := by
  have hnorm := jsonNormalize_refeed t hnd hlen hpos hvals
  have heq := data_transform_eq
    (.fcons "results" (.arr (listToJList ((tableRecords t).map
      (fun r => JValue.obj (JFields.ofList r))))) .fnil) _ t rfl hnorm
  rw [show tableToPayload t = JValue.obj (.fcons "results"
      (.arr (listToJList ((tableRecords t).map
        (fun r => JValue.obj (JFields.ofList r))))) .fnil) from rfl, heq]
  congr 1
  apply map_fixed
  intro c hc
  rw [hnames c hc, hastype c hc]

/-- C7: normalization is idempotent.  If `data_transform` produced a table
(and cleaning did not collide two column names — collisions are an open
question in the specification), then wrapping that table's rows back into a
`{"results": [...]}` payload and running `data_transform` again returns the
very same table. -/
theorem c7_normalize_idempotent (p : JValue) (t : Table)
    (h : data_transform p = .ok t)
    (hnd : nodupKeys (t.map Prod.fst) = true) :
    data_transform (tableToPayload t) = .ok t := by
  obtain ⟨fs, rv, t₀, rfl, hlk, hnorm, rfl⟩ := data_transform_ok_inv _ _ h
  rcases jsonNormalize_ok_inv rv t₀ hnorm with rfl | ⟨records, f₀, rest, hrec, hfl, hcond, rfl⟩
  · rfl
  · apply data_transform_refeed _ hnd
    · intro c hc
      rw [List.mem_map] at hc
      obtain ⟨c₀, _, rfl⟩ := hc
      exact cleanCol_idem c₀.1
    · intro c hc
      rw [List.mem_map] at hc
      obtain ⟨c₀, hc₀, rfl⟩ := hc
      rw [List.mem_map] at hc₀
      obtain ⟨k, hk, rfl⟩ := hc₀
      obtain ⟨k₁, ks', hks'⟩ : ∃ k₁ ks', f₀.map Prod.fst = k₁ :: ks' := by
        cases hq : f₀.map Prod.fst with
        | nil => rw [hq] at hk; exact absurd hk (List.not_mem_nil k)
        | cons a b => exact ⟨a, b, rfl⟩
      rw [hks']
      show (astypeCol ((f₀ :: rest).map fun f => (alistLookup k f).getD JValue.null)).length =
        (astypeCol ((f₀ :: rest).map fun f => (alistLookup k₁ f).getD JValue.null)).length
      rw [astypeCol_length, astypeCol_length, List.length_map, List.length_map]
    · intro hne
      obtain ⟨k₁, ks', hks'⟩ : ∃ k₁ ks', f₀.map Prod.fst = k₁ :: ks' := by
        cases hq : f₀.map Prod.fst with
        | nil =>
          exfalso
          apply hne
          rw [hq]
          rfl
        | cons a b => exact ⟨a, b, rfl⟩
      rw [hks']
      show 0 < (astypeCol ((f₀ :: rest).map fun f => (alistLookup k₁ f).getD JValue.null)).length
      rw [astypeCol_length, List.length_map]
      exact Nat.succ_pos _
    · intro c hc v hv
      rw [List.mem_map] at hc
      obtain ⟨c₀, hc₀, rfl⟩ := hc
      rw [List.mem_map] at hc₀
      obtain ⟨k, hk, rfl⟩ := hc₀
      refine astypeCol_values_not_obj ?_ v hv
      intro w hw
      rw [List.mem_map] at hw
      obtain ⟨f, hf, rfl⟩ := hw
      cases ho : alistLookup k f with
      | none => rfl
      | some w' =>
        exact flattenRecords_values_not_obj records _ hfl f hf (k, w')
          (alistLookup_some_mem k f w' ho)
    · intro c hc
      rw [List.mem_map] at hc
      obtain ⟨c₀, _, rfl⟩ := hc
      exact astypeCol_idem c₀.2

/-- Witness for C7, on the specification's Ana scenario: transforming the
payload gives `anaTable`, whose cleaned names are collision-free, and
re-normalizing `anaTable` returns `anaTable` itself. -/
theorem c7_normalize_idempotent_witness :
    (data_transform anaPayload = .ok anaTable ∧
      nodupKeys (anaTable.map Prod.fst) = true) ∧
    data_transform (tableToPayload anaTable) = .ok anaTable :=
  ⟨⟨rfl, by decide⟩, c7_normalize_idempotent anaPayload anaTable rfl (by decide)⟩
